import Mathlib

set_option maxRecDepth 4000

/-!
Shallow embedding of the go-cidr-manager library (package ipv4cidr and its
utils/consts helpers).  Go strings are modelled as lists of characters
(the library only ever manipulates ASCII digits, dots and slashes, for which
byte-level and character-level processing agree).  Go fixed-width integers
are modelled as natural numbers carrying their value, with an explicit
reduction modulo 2^32 (respectively 2^8) wherever the Go code can overflow
or wrap.  Fallible Go functions returning (T, error) are modelled as
Except CIDRErr T.
-/

/-- Modulus of Go's uint32 type. -/
def uint32Mod : Nat := 4294967296

/-- Numeric constant MaxUInt32 from consts: the all-ones 32-bit value. -/
def MaxUInt32 : Nat := 4294967295

/-- Numeric constant MaxBits from consts. -/
def MaxBits : Nat := 32

/-- Numeric constant EightBits from consts: the low-byte mask 255. -/
def EightBits : Nat := 255

/-- Numeric constant GroupSize from consts: the width of one octet. -/
def GroupSize : Nat := 8

/-- Numeric constant HighestBitSet from consts: uint32(1) shifted left by 31. -/
def HighestBitSet : Nat := 2147483648

/-- Wrapping subtraction on the uint8 values carried by a Nat, as performed by
the Go expression consts.MaxBits - mask on two uint8 operands. -/
def uint8Sub (a b : Nat) : Nat := (256 + a % 256 - b % 256) % 256

/-- Error values of the library.  The four named errors correspond to the
error strings in consts/errors.go; atoiError stands for any error returned by
strconv.Atoi, and indexOutOfRange stands for the runtime panic a Go slice
access out of bounds would raise inside parse. -/
inductive CIDRErr where
  | invalidIPv4CIDR
  | nonStandardizedIP
  | noMoreSplittingPossible
  | requestedIPExceedsCIDRRange
  | atoiError
  | indexOutOfRange
  deriving DecidableEq, Repr

/-- IPv4CIDR models the struct of the same name: ip and netmask carry uint32
values, mask carries a uint8 value, rangeLength carries a uint32 value. -/
structure IPv4CIDR where
  ip : Nat
  mask : Nat
  netmask : Nat
  rangeLength : Nat
  deriving DecidableEq, Repr

/-- GetNetmask from utils: MaxUInt32 shifted left by (MaxBits - mask), where
the subtraction wraps in uint8 and the shift of a uint32 by a count of 32 or
more yields 0 (Go defines such shifts; the mod uint32Mod realises this). -/
def GetNetmask (mask : Nat) : Nat :=
  (MaxUInt32 <<< uint8Sub MaxBits mask) % uint32Mod

/-- GetCIDRRangeLength from utils: uint32(math.Pow(2, float64(MaxBits - mask))).
For exponents 0..32 the float64 power is exact, and converting the only
out-of-range value 2^32 to uint32 wraps to 0 (the behaviour the repository's
spec documents for prefix length 0), so the function is embedded as
2^(MaxBits - mask) reduced modulo 2^32, with the uint8-wrapping subtraction. -/
def GetCIDRRangeLength (mask : Nat) : Nat :=
  (2 ^ uint8Sub MaxBits mask) % uint32Mod

/-- Standardize from utils: bitwise AND of the IP and the netmask. -/
def Standardize (ip netmask : Nat) : Nat := ip &&& netmask

/-- CheckStandardized from utils: succeeds iff the IP equals its own
standardization, otherwise returns the NonStandardizedIPError. -/
def CheckStandardized (ip netmask : Nat) : Except CIDRErr Unit :=
  if ip = Standardize ip netmask then Except.ok () else Except.error CIDRErr.nonStandardizedIP

/-- Decimal digit character for a value 0..9 (ASCII 48 is the character 0). -/
def natDigitChar (d : Nat) : Char := Char.ofNat (48 + d)

/-- Helper loop for itoa, structurally recursive on a fuel argument that is
always sufficient (fuel n + 1 emits all decimal digits of n). -/
def itoaAux : Nat → Nat → List Char → List Char
  | 0, _, acc => acc
  | fuel + 1, n, acc =>
    if n < 10 then natDigitChar n :: acc
    else itoaAux fuel (n / 10) (natDigitChar (n % 10) :: acc)

/-- Embedding of strconv.Itoa on the non-negative values the library prints:
the usual decimal digit expansion, most significant digit first. -/
def itoa (n : Nat) : List Char := itoaAux (n + 1) n []

/-- Test for an ASCII decimal digit character (codes 48..57). -/
def isDigitChar (c : Char) : Bool := 48 ≤ c.toNat && c.toNat ≤ 57

/-- Numeric value of an ASCII digit character. -/
def digitVal (c : Char) : Nat := c.toNat - 48

/-- Value of a decimal digit string, most significant digit first. -/
def decimalVal (l : List Char) : Nat := l.foldl (fun a d => 10 * a + digitVal d) 0

/-- Embedding of strconv.Atoi: an optional sign followed by at least one
decimal digit, with failure (none) on an empty string, a stray character, or
overflow of the 64-bit int range. -/
def atoi (s : List Char) : Option Int :=
  match s with
  | [] => none
  | c :: rest =>
    let neg : Bool := c = '-'
    let digits : List Char := if c = '-' || c = '+' then rest else c :: rest
    if digits.isEmpty then none
    else if digits.all isDigitChar then
      let v : Nat := decimalVal digits
      let res : Int := if neg then -(v : Int) else (v : Int)
      if res < -(2 ^ 63) || (2 ^ 63 - 1 : Int) < res then none else some res
    else none

/-- Embedding of Go's strings.Split for a one-character separator: the list of
maximal separator-free segments, one more segment than separators. -/
def splitOnChar (sep : Char) : List Char → List (List Char)
  | [] => [[]]
  | c :: rest =>
    match splitOnChar sep rest with
    | [] => [[]]
    | cur :: acc => if c = sep then [] :: cur :: acc else (c :: cur) :: acc

/-- ConvertIPToString from utils, with the loop over the four octets unrolled:
each step takes the low byte and shifts right by GroupSize, filling the
sections from least significant to most significant, which are then joined
with dots. -/
def ConvertIPToString (ip : Nat) : List Char :=
  let s3 := itoa (ip &&& EightBits)
  let r3 := ip >>> GroupSize
  let s2 := itoa (r3 &&& EightBits)
  let r2 := r3 >>> GroupSize
  let s1 := itoa (r2 &&& EightBits)
  let r1 := r2 >>> GroupSize
  let s0 := itoa (r1 &&& EightBits)
  List.intercalate ['.'] [s0, s1, s2, s3]

/-- Matcher for one octet of the validation pattern, the alternation
25[0-5] or 2[0-4][0-9] or [01]?[0-9][0-9]?, by length of the candidate:
one or two characters match exactly when all are digits, three characters
match the three explicit alternatives. -/
def matchOctet : List Char → Bool
  | [a] => isDigitChar a
  | [a, b] => isDigitChar a && isDigitChar b
  | [a, b, c] =>
    (a = '2' && b = '5' && 48 ≤ c.toNat && c.toNat ≤ 53) ||
    (a = '2' && 48 ≤ b.toNat && b.toNat ≤ 52 && isDigitChar c) ||
    ((a = '0' || a = '1') && isDigitChar b && isDigitChar c)
  | _ => false

/-- Matcher for the mask part of the validation pattern, the alternation
[0-9] or [1-2][0-9] or 3[0-2]. -/
def matchMaskPart : List Char → Bool
  | [a] => isDigitChar a
  | [a, b] => ((a = '1' || a = '2') && isDigitChar b) || (a = '3' && 48 ≤ b.toNat && b.toNat ≤ 50)
  | _ => false

/-- Matcher for the dotted-quad part of the validation pattern.  In the
anchored pattern the three dots are literal and every octet alternative
matches only digit characters, so a full-pattern match forces the string to
split at its dots into exactly four octet matches; splitting on the dot
character recovers exactly that decomposition. -/
def matchIPPart (l : List Char) : Bool :=
  match splitOnChar '.' l with
  | [a, b, c, d] => matchOctet a && matchOctet b && matchOctet c && matchOctet d
  | _ => false

/-- Embedding of a full match of consts.IPv4CIDRRegex (the pattern is
anchored with both anchors, so regexp.Match is a whole-string match).  The
optional suffix group starts with a literal slash and neither the octets nor
the mask alternatives can match a slash, so a match forces the string to be
either a dotted quad with no slash, or a dotted quad, one slash, and a mask
part; splitting on the slash character recovers that decomposition. -/
def IPv4CIDRRegexMatch (l : List Char) : Bool :=
  match splitOnChar '/' l with
  | [ipPart] => matchIPPart ipPart
  | [ipPart, maskPart] => matchIPPart ipPart && matchMaskPart maskPart
  | _ => false

/-- Loop body of parse over the four octet indices 0..3 (the Go loop
for i := 0; i < 4; i++ is modelled by iterating over the index list):
each step converts the octet with Atoi, truncates the int to uint32, and
folds it into the accumulator with a uint32 shift and a bitwise OR.  An
out-of-bounds octet index, which in Go would panic, yields indexOutOfRange. -/
def parseIPLoop (ipNumbers : List (List Char)) : List Nat → Nat → Except CIDRErr Nat
  | [], ip => Except.ok ip
  | i :: rest, ip =>
    match ipNumbers.get? i with
    | none => Except.error CIDRErr.indexOutOfRange
    | some s =>
      match atoi s with
      | none => Except.error CIDRErr.atoiError
      | some tempIP =>
        parseIPLoop ipNumbers rest
          (((ip <<< GroupSize) % uint32Mod) ||| ((tempIP % (uint32Mod : Int)).toNat))

/-- Embedding of the parse method: split off the optional mask after the
slash (defaulting to 32, truncating the Atoi result to uint8), split the IP
part at the dots, fold the four octets into a 32-bit value, derive netmask
and range length, and either standardize the IP or check that it is already
standard. -/
def IPv4CIDR.parse (ipString : List Char) (standardize : Bool) : Except CIDRErr IPv4CIDR :=
  let ipSections := splitOnChar '/' ipString
  let maskRes : Except CIDRErr Nat :=
    if ipSections.length = 2 then
      match atoi (ipSections.getD 1 []) with
      | none => Except.error CIDRErr.atoiError
      | some tempMask => Except.ok ((tempMask % (256 : Int)).toNat)
    else
      Except.ok 32
  match maskRes with
  | Except.error e => Except.error e
  | Except.ok mask =>
    let ipNumbers := splitOnChar '.' (ipSections.getD 0 [])
    match parseIPLoop ipNumbers [0, 1, 2, 3] 0 with
    | Except.error e => Except.error e
    | Except.ok ip =>
      let netmask := GetNetmask mask
      let rangeLength := GetCIDRRangeLength mask
      if standardize then
        Except.ok ⟨Standardize ip netmask, mask, netmask, rangeLength⟩
      else
        match CheckStandardized ip netmask with
        | Except.error e => Except.error e
        | Except.ok _ => Except.ok ⟨ip, mask, netmask, rangeLength⟩

/-- NewIPv4CIDR: validate the input against the pattern (the pattern is a
fixed valid regular expression, so the compilation-error branch of
regexp.Match is unreachable), then parse it. -/
def NewIPv4CIDR (IP : List Char) (standardize : Bool) : Except CIDRErr IPv4CIDR :=
  if IPv4CIDRRegexMatch IP then IPv4CIDR.parse IP standardize
  else Except.error CIDRErr.invalidIPv4CIDR

/-- Split: refuse a single-address block, otherwise return the two half
blocks with mask + 1 (uint8 addition), half the range, the netmask extended
by one bit, and the upper block's IP obtained by setting the new mask bit. -/
def IPv4CIDR.Split (i : IPv4CIDR) : Except CIDRErr (IPv4CIDR × IPv4CIDR) :=
  if i.rangeLength = 1 then Except.error CIDRErr.noMoreSplittingPossible
  else
    let newMask := (i.mask + 1) % 256
    let newRange := i.rangeLength / 2
    let newNetmask := (i.netmask >>> 1) ||| HighestBitSet
    let newIP1 := i.ip
    let newIP2 := i.ip ||| (newNetmask ^^^ i.netmask)
    Except.ok (⟨newIP1, newMask, newNetmask, newRange⟩, ⟨newIP2, newMask, newNetmask, newRange⟩)

/-- GetIPInRange: error when the range length is below n, otherwise the
string of ip + n - 1 in uint32 arithmetic (adding n then subtracting one,
each modulo 2^32), with the mask appended after a slash when requested. -/
def IPv4CIDR.GetIPInRange (i : IPv4CIDR) (n : Nat) (withCIDR : Bool) : Except CIDRErr (List Char) :=
  if i.rangeLength < n then Except.error CIDRErr.requestedIPExceedsCIDRRange
  else
    let nthIP := (((i.ip + n) % uint32Mod) + 4294967295) % uint32Mod
    let nthIPstr := ConvertIPToString nthIP
    if withCIDR then Except.ok (nthIPstr ++ '/' :: itoa i.mask)
    else Except.ok nthIPstr

/-- ToString: the IP string, a slash, and the mask in decimal. -/
def IPv4CIDR.ToString (i : IPv4CIDR) : List Char :=
  ConvertIPToString i.ip ++ '/' :: itoa i.mask

/-- GetIP: the IP string of the block. -/
def IPv4CIDR.GetIP (i : IPv4CIDR) : List Char :=
  ConvertIPToString i.ip

/-- Invariant package enjoyed by every block the constructor returns: the
mask is a prefix length, the ip fits in 32 bits, netmask and range length
are the derived values for the mask, and the ip is standard form. -/
def ValidBlock (b : IPv4CIDR) : Prop :=
  b.mask ≤ 32 ∧ b.ip < uint32Mod ∧ b.netmask = GetNetmask b.mask ∧
  b.rangeLength = GetCIDRRangeLength b.mask ∧ b.ip &&& b.netmask = b.ip

theorem isDigitChar_bounds {c : Char} (h : isDigitChar c = true) : 48 ≤ c.toNat ∧ c.toNat ≤ 57 := by
  simpa [isDigitChar] using h

theorem isDigitChar_ne_minus {c : Char} (h : isDigitChar c = true) : ¬ (c = '-') := by
  intro he
  subst he
  exact absurd h (by decide)

theorem isDigitChar_ne_plus {c : Char} (h : isDigitChar c = true) : ¬ (c = '+') := by
  intro he
  subst he
  exact absurd h (by decide)

theorem atoi_digits {c : Char} {rest : List Char} (hall : (c :: rest).all isDigitChar = true)
    (hlt : decimalVal (c :: rest) < 2 ^ 63) :
    atoi (c :: rest) = some ((decimalVal (c :: rest) : Nat) : Int) := by
  have hc : isDigitChar c = true := by
    have := List.all_eq_true.mp hall
    exact this c (by simp)
  have hm := isDigitChar_ne_minus hc
  have hp := isDigitChar_ne_plus hc
  have h1 : ¬((2 ^ 63 - 1 : Int) < (decimalVal (c :: rest) : Int)) := by
    push_cast
    omega
  simp [atoi, hm, hp, hall, h1]
  omega

theorem decimalVal_one (a : Char) : decimalVal [a] = digitVal a := by
  simp [decimalVal]

theorem decimalVal_two (a b : Char) : decimalVal [a, b] = 10 * digitVal a + digitVal b := by
  simp [decimalVal]

theorem decimalVal_three (a b c : Char) :
    decimalVal [a, b, c] = 10 * (10 * digitVal a + digitVal b) + digitVal c := by
  simp [decimalVal, Nat.mul_add]

theorem atoi_matchOctet {o : List Char} (h : matchOctet o = true) :
    ∃ v : Nat, v ≤ 255 ∧ atoi o = some (v : Int) := by
  rcases o with _ | ⟨a, _ | ⟨b, _ | ⟨c, _ | ⟨d, t⟩⟩⟩⟩
  · exact absurd h (by simp [matchOctet])
  · have ha := isDigitChar_bounds (by simpa [matchOctet] using h)
    refine ⟨decimalVal [a], ?_, ?_⟩
    · rw [decimalVal_one]
      unfold digitVal
      omega
    · refine atoi_digits (by simpa [matchOctet] using h) ?_
      rw [decimalVal_one]
      unfold digitVal
      omega
  · simp only [matchOctet, Bool.and_eq_true] at h
    have ha := isDigitChar_bounds h.1
    have hb := isDigitChar_bounds h.2
    refine ⟨decimalVal [a, b], ?_, ?_⟩
    · rw [decimalVal_two]
      unfold digitVal
      omega
    · refine atoi_digits (by simp [h.1, h.2]) ?_
      rw [decimalVal_two]
      unfold digitVal
      omega
  · have hv := decimalVal_three a b c
    have hbound : decimalVal [a, b, c] ≤ 255 ∧ (a :: b :: c :: []).all isDigitChar = true := by
      simp only [matchOctet, Bool.or_eq_true, Bool.and_eq_true, decide_eq_true_eq] at h
      rcases h with (⟨⟨⟨h2, h5⟩, hc1⟩, hc2⟩ | ⟨⟨⟨h2, hb1⟩, hb2⟩, hc⟩) | ⟨⟨h01, hb⟩, hc⟩
      · subst h2
        subst h5
        have hcd : isDigitChar c = true := by
          simp only [isDigitChar, Bool.and_eq_true, decide_eq_true_eq]
          omega
        constructor
        · rw [hv]
          have e2 : digitVal '2' = 2 := by decide
          have e5 : digitVal '5' = 5 := by decide
          rw [e2, e5]
          unfold digitVal
          omega
        · simp [List.all_cons, hcd]
          decide
      · subst h2
        have hc' := isDigitChar_bounds hc
        constructor
        · rw [hv]
          have e2 : digitVal '2' = 2 := by decide
          rw [e2]
          unfold digitVal
          omega
        · simp [List.all_cons, hc]
          constructor
          · decide
          · simp only [isDigitChar, Bool.and_eq_true, decide_eq_true_eq]
            omega
      · have hb' := isDigitChar_bounds hb
        have hc' := isDigitChar_bounds hc
        have had : isDigitChar a = true := by
          simp only [isDigitChar, Bool.and_eq_true, decide_eq_true_eq]
          rcases h01 with h0 | h0
          all_goals subst h0
          all_goals decide
        have ha' : digitVal a ≤ 1 := by
          rcases h01 with h0 | h0
          all_goals subst h0
          all_goals decide
        constructor
        · rw [hv]
          unfold digitVal at ha' ⊢
          omega
        · simp [List.all_cons, hb, hc, had]
    refine ⟨decimalVal [a, b, c], hbound.1, atoi_digits hbound.2 ?_⟩
    omega
  · exact absurd h (by simp [matchOctet])

theorem atoi_matchMaskPart {s : List Char} (h : matchMaskPart s = true) :
    ∃ v : Nat, v ≤ 32 ∧ atoi s = some (v : Int) := by
  rcases s with _ | ⟨a, _ | ⟨b, t⟩⟩
  · exact absurd h (by simp [matchMaskPart])
  · have ha := isDigitChar_bounds (by simpa [matchMaskPart] using h)
    refine ⟨decimalVal [a], ?_, ?_⟩
    · rw [decimalVal_one]
      unfold digitVal
      omega
    · refine atoi_digits (by simpa [matchMaskPart] using h) ?_
      rw [decimalVal_one]
      unfold digitVal
      omega
  · rcases t with _ | _
    · have hv := decimalVal_two a b
      have hbound : decimalVal [a, b] ≤ 32 ∧ (a :: b :: []).all isDigitChar = true := by
        simp only [matchMaskPart, Bool.or_eq_true, Bool.and_eq_true, decide_eq_true_eq] at h
        rcases h with ⟨h12, hb⟩ | ⟨⟨h3, hb1⟩, hb2⟩
        · have hb' := isDigitChar_bounds hb
          have hda : digitVal a ≤ 2 := by
            rcases h12 with h0 | h0
            all_goals subst h0
            all_goals decide
          have had : isDigitChar a = true := by
            rcases h12 with h0 | h0
            all_goals subst h0
            all_goals decide
          constructor
          · rw [hv]
            unfold digitVal at hda ⊢
            omega
          · simp [List.all_cons, hb, had]
        · subst h3
          have hbd : isDigitChar b = true := by
            simp only [isDigitChar, Bool.and_eq_true, decide_eq_true_eq]
            omega
          constructor
          · rw [hv]
            have e3 : digitVal '3' = 3 := by decide
            rw [e3]
            unfold digitVal
            omega
          · simp [List.all_cons, hbd]
            decide
      refine ⟨decimalVal [a, b], hbound.1, atoi_digits hbound.2 ?_⟩
      omega
    · exact absurd h (by simp [matchMaskPart])

theorem uint32Mod_eq : uint32Mod = 2 ^ 32 := by norm_num [uint32Mod]

theorem int_u32_small {s : Nat} (h : s < uint32Mod) :
    (((s : Nat) : Int) % (uint32Mod : Int)).toNat = s := by
  rw [Int.emod_eq_of_lt (by positivity) (by exact_mod_cast h)]
  simp

theorem parseIPLoop_cons_ok {nums : List (List Char)} {i : Nat} {rest : List Nat}
    {acc : Nat} {r : List Char} {v : Nat} (hg : nums[i]? = some r)
    (ha : atoi r = some ((v : Nat) : Int)) (hv : v < uint32Mod) :
    parseIPLoop nums (i :: rest) acc =
      parseIPLoop nums rest (((acc <<< GroupSize) % uint32Mod) ||| v) := by
  simp [parseIPLoop, hg, ha, int_u32_small hv]

theorem step_eq {acc v : Nat} (hacc : acc < 2 ^ 24) (hv : v < 256) :
    ((acc <<< GroupSize) % uint32Mod) ||| v = acc * 256 + v := by
  have hsh : acc <<< GroupSize = acc * 256 := by
    rw [Nat.shiftLeft_eq]
    norm_num [GroupSize]
  have hlt : acc * 256 < uint32Mod := by
    norm_num [uint32Mod] at *
    omega
  have hv8 : v < 2 ^ 8 := by norm_num; omega
  have hor := Nat.mul_add_lt_is_or hv8 acc
  rw [hsh, Nat.mod_eq_of_lt hlt, Nat.mul_comm acc 256]
  rw [show (256 : Nat) = 2 ^ 8 by norm_num]
  omega

theorem parseIPLoop_four {r0 r1 r2 r3 : List Char} {s0 s1 s2 s3 : Nat}
    (h0 : atoi r0 = some ((s0 : Nat) : Int)) (h1 : atoi r1 = some ((s1 : Nat) : Int))
    (h2 : atoi r2 = some ((s2 : Nat) : Int)) (h3 : atoi r3 = some ((s3 : Nat) : Int))
    (b0 : s0 < 256) (b1 : s1 < 256) (b2 : s2 < 256) (b3 : s3 < 256) :
    parseIPLoop [r0, r1, r2, r3] [0, 1, 2, 3] 0 =
      Except.ok (((s0 * 256 + s1) * 256 + s2) * 256 + s3) := by
  have m : uint32Mod = 4294967296 := rfl
  rw [parseIPLoop_cons_ok (by rfl) h0 (by omega), step_eq (by norm_num) b0]
  rw [parseIPLoop_cons_ok (by rfl) h1 (by omega), step_eq (by norm_num; omega) b1]
  rw [parseIPLoop_cons_ok (by rfl) h2 (by omega), step_eq (by norm_num; omega) b2]
  rw [parseIPLoop_cons_ok (by rfl) h3 (by omega), step_eq (by norm_num; omega) b3]
  simp [parseIPLoop]

theorem parse_of_match (l : List Char) (std : Bool) (hm : IPv4CIDRRegexMatch l = true) :
    ∃ (mask ip : Nat), mask ≤ 32 ∧ ip < uint32Mod ∧
      IPv4CIDR.parse l std =
        (if std then
          Except.ok ⟨Standardize ip (GetNetmask mask), mask, GetNetmask mask, GetCIDRRangeLength mask⟩
         else
          match CheckStandardized ip (GetNetmask mask) with
          | Except.error e => Except.error e
          | Except.ok _ => Except.ok ⟨ip, mask, GetNetmask mask, GetCIDRRangeLength mask⟩) := by
  unfold IPv4CIDRRegexMatch at hm
  rcases hS : splitOnChar '/' l with _ | ⟨ipPart, _ | ⟨maskPart, t2⟩⟩
  · rw [hS] at hm
    exact absurd hm (by simp)
  · rw [hS] at hm
    have hip : matchIPPart ipPart = true := hm
    unfold matchIPPart at hip
    rcases hD : splitOnChar '.' ipPart with _ | ⟨a, _ | ⟨b, _ | ⟨c, _ | ⟨d, _ | ⟨e, t5⟩⟩⟩⟩⟩
    all_goals rw [hD] at hip
    case cons.cons.cons.cons.nil =>
      simp only [Bool.and_eq_true] at hip
      obtain ⟨s0, hs0b, hs0⟩ := atoi_matchOctet hip.1.1.1
      obtain ⟨s1, hs1b, hs1⟩ := atoi_matchOctet hip.1.1.2
      obtain ⟨s2, hs2b, hs2⟩ := atoi_matchOctet hip.1.2
      obtain ⟨s3, hs3b, hs3⟩ := atoi_matchOctet hip.2
      refine ⟨32, ((s0 * 256 + s1) * 256 + s2) * 256 + s3, le_refl 32, by norm_num [uint32Mod]; omega, ?_⟩
      have hloop := parseIPLoop_four hs0 hs1 hs2 hs3 (by omega) (by omega) (by omega) (by omega)
      simp only [IPv4CIDR.parse, hS]
      norm_num [List.getD, List.get?]
      rw [hD, hloop]
    all_goals exact absurd hip (by simp)
  · rcases t2 with _ | _
    · rw [hS] at hm
      simp only [Bool.and_eq_true] at hm
      have hip : matchIPPart ipPart = true := hm.1
      obtain ⟨mv, hmvb, hmv⟩ := atoi_matchMaskPart hm.2
      unfold matchIPPart at hip
      rcases hD : splitOnChar '.' ipPart with _ | ⟨a, _ | ⟨b, _ | ⟨c, _ | ⟨d, _ | ⟨e, t5⟩⟩⟩⟩⟩
      all_goals rw [hD] at hip
      case cons.cons.cons.cons.nil =>
        simp only [Bool.and_eq_true] at hip
        obtain ⟨s0, hs0b, hs0⟩ := atoi_matchOctet hip.1.1.1
        obtain ⟨s1, hs1b, hs1⟩ := atoi_matchOctet hip.1.1.2
        obtain ⟨s2, hs2b, hs2⟩ := atoi_matchOctet hip.1.2
        obtain ⟨s3, hs3b, hs3⟩ := atoi_matchOctet hip.2
        refine ⟨mv, ((s0 * 256 + s1) * 256 + s2) * 256 + s3, hmvb, by norm_num [uint32Mod]; omega, ?_⟩
        have hloop := parseIPLoop_four hs0 hs1 hs2 hs3 (by omega) (by omega) (by omega) (by omega)
        have hmv256 : (((mv : Nat) : Int) % (256 : Int)).toNat = mv := by
          rw [Int.emod_eq_of_lt (by positivity) (by exact_mod_cast (by omega : mv < 256))]
          simp
        simp only [IPv4CIDR.parse, hS]
        norm_num [List.getD, List.get?, hmv, hmv256]
        rw [hD, hloop]
      all_goals exact absurd hip (by simp)
    · rw [hS] at hm
      exact absurd hm (by simp)

theorem newIPv4CIDR_valid {l : List Char} {std : Bool} {b : IPv4CIDR}
    (h : NewIPv4CIDR l std = Except.ok b) : ValidBlock b := by
  unfold NewIPv4CIDR at h
  split at h
  case isFalse => exact absurd h (by simp)
  case isTrue hm =>
    obtain ⟨mask, ip, hm32, hip, hp⟩ := parse_of_match l std hm
    rw [hp] at h
    cases std
    · simp only [Bool.false_eq_true, if_false] at h
      unfold CheckStandardized at h
      split at h
      next => exact absurd h (by simp)
      next u heq =>
        split at heq
        next hstd =>
          simp only [Except.ok.injEq] at h
          subst h
          exact ⟨hm32, hip, rfl, rfl, hstd.symm⟩
        next => exact absurd heq (by simp)
    · simp only [if_true] at h
      simp only [Except.ok.injEq] at h
      subst h
      refine ⟨hm32, ?_, rfl, rfl, ?_⟩
      · exact lt_of_le_of_lt Nat.and_le_left hip
      · show (ip &&& GetNetmask mask) &&& GetNetmask mask = ip &&& GetNetmask mask
        rw [Nat.and_assoc, Nat.and_self]

theorem netmask_split_step : ∀ m < 32, (GetNetmask m >>> 1) ||| HighestBitSet = GetNetmask (m + 1) := by decide

theorem netmask_xor : ∀ m < 32, GetNetmask (m + 1) ^^^ GetNetmask m = 2 ^ (31 - m) := by decide

theorem netmask_mono : ∀ m < 32, GetNetmask m &&& GetNetmask (m + 1) = GetNetmask m := by decide

theorem pow_and_netmask : ∀ m < 32, 2 ^ (31 - m) &&& GetNetmask (m + 1) = 2 ^ (31 - m) := by decide

theorem netmask_low_zero : ∀ m < 33, GetNetmask m &&& (2 ^ (32 - m) - 1) = 0 := by decide

theorem range_pos_closed : ∀ m < 33, 1 ≤ m → GetCIDRRangeLength m = 2 ^ (32 - m) := by decide

theorem range_one_iff : ∀ m < 33, (GetCIDRRangeLength m = 1 ↔ m = 32) := by decide

theorem range_zero : GetCIDRRangeLength 0 = 0 := by decide

theorem valid_ip_mod {b : IPv4CIDR} (hv : ValidBlock b) : b.ip % 2 ^ (32 - b.mask) = 0 := by
  obtain ⟨hm, hip, hnm, _, hinv⟩ := hv
  have h6 := netmask_low_zero b.mask (by omega)
  calc b.ip % 2 ^ (32 - b.mask)
      = b.ip &&& (2 ^ (32 - b.mask) - 1) := (Nat.and_pow_two_sub_one_eq_mod b.ip (32 - b.mask)).symm
    _ = (b.ip &&& b.netmask) &&& (2 ^ (32 - b.mask) - 1) := by rw [hinv]
    _ = b.ip &&& (b.netmask &&& (2 ^ (32 - b.mask) - 1)) := Nat.and_assoc b.ip b.netmask _
    _ = b.ip &&& 0 := by rw [hnm, h6]
    _ = 0 := Nat.and_zero b.ip

theorem ip_or_pow {b : IPv4CIDR} (hv : ValidBlock b) (hm : b.mask < 32) :
    b.ip ||| 2 ^ (31 - b.mask) = b.ip + 2 ^ (31 - b.mask) := by
  obtain ⟨t, ht⟩ := Nat.dvd_of_mod_eq_zero (valid_ip_mod hv)
  have hlt : 2 ^ (31 - b.mask) < 2 ^ (32 - b.mask) := by
    have h1 : 32 - b.mask = (31 - b.mask) + 1 := by omega
    have hx : 0 < 2 ^ (31 - b.mask) := Nat.pow_pos (by norm_num)
    rw [h1, Nat.pow_succ]
    omega
  have hor := Nat.mul_add_lt_is_or hlt t
  rw [ht, hor]

theorem split_result {b : IPv4CIDR} (hv : ValidBlock b) (hr : b.rangeLength ≠ 1) :
    b.mask < 32 ∧
    b.Split = Except.ok
      (⟨b.ip, b.mask + 1, GetNetmask (b.mask + 1), b.rangeLength / 2⟩,
       ⟨b.ip ||| 2 ^ (31 - b.mask), b.mask + 1, GetNetmask (b.mask + 1), b.rangeLength / 2⟩) := by
  obtain ⟨hm, hip, hnm, hrl, hinv⟩ := hv
  have hm32 : b.mask < 32 := by
    rcases Nat.lt_or_ge b.mask 32 with h | h
    · exact h
    · have : b.mask = 32 := by omega
      rw [hrl, this] at hr
      exact absurd ((range_one_iff 32 (by omega)).mpr rfl) hr
  refine ⟨hm32, ?_⟩
  have hmask8 : (b.mask + 1) % 256 = b.mask + 1 := Nat.mod_eq_of_lt (by omega)
  simp only [IPv4CIDR.Split, if_neg hr]
  rw [hnm, netmask_split_step b.mask hm32, hmask8, netmask_xor b.mask hm32]

/-- C1: for every block constructed by NewIPv4CIDR, with either value of the
standardize flag, the stored address satisfies address AND netmask == address,
and this standard-form invariant is preserved by Split: both blocks returned
by a successful Split satisfy it with respect to their new netmask. -/
theorem c1_standard_form :
    ∀ (l : List Char) (std : Bool) (b : IPv4CIDR), NewIPv4CIDR l std = Except.ok b →
      b.ip &&& b.netmask = b.ip ∧
      ∀ lo hi : IPv4CIDR, b.Split = Except.ok (lo, hi) →
        lo.ip &&& lo.netmask = lo.ip ∧ hi.ip &&& hi.netmask = hi.ip := by
  intro l std b h
  have hv := newIPv4CIDR_valid h
  refine ⟨hv.2.2.2.2, ?_⟩
  intro lo hi hs
  by_cases hr : b.rangeLength = 1
  · rw [IPv4CIDR.Split, if_pos hr] at hs
    exact absurd hs (by simp)
  · obtain ⟨hm32, hsplit⟩ := split_result hv hr
    rw [hsplit] at hs
    simp only [Except.ok.injEq, Prod.mk.injEq] at hs
    obtain ⟨h1, h2⟩ := hs
    subst h1
    subst h2
    have hinv := hv.2.2.2.2
    have hnm := hv.2.2.1
    have hlow : b.ip &&& GetNetmask (b.mask + 1) = b.ip := by
      conv_lhs => rw [← hinv, hnm]
      rw [Nat.and_assoc, netmask_mono b.mask hm32, ← hnm, hinv]
    constructor
    · exact hlow
    · show (b.ip ||| 2 ^ (31 - b.mask)) &&& GetNetmask (b.mask + 1) = b.ip ||| 2 ^ (31 - b.mask)
      rw [Nat.and_distrib_right, hlow, pow_and_netmask b.mask hm32]

/-- C2 (amended): for every constructed block whose stored rangeLength is
nonzero (prefix length at least 1) on which Split succeeds, the result is a
partition of the parent: the range lengths of the halves sum to the parent
range length, the lower address is below the upper, and the upper address is
the lower address plus the lower range length.  The original claim, without
the nonzero-rangeLength restriction, fails on the /0 block, whose stored
rangeLength wrapped to 0. -/
theorem c2_partition :
    ∀ (l : List Char) (std : Bool) (b lo hi : IPv4CIDR), NewIPv4CIDR l std = Except.ok b →
      b.rangeLength ≠ 0 → b.Split = Except.ok (lo, hi) →
      lo.rangeLength + hi.rangeLength = b.rangeLength ∧ lo.ip < hi.ip ∧
        hi.ip = lo.ip + lo.rangeLength := by
  intro l std b lo hi h hnz hs
  have hv := newIPv4CIDR_valid h
  by_cases hr : b.rangeLength = 1
  · rw [IPv4CIDR.Split, if_pos hr] at hs
    exact absurd hs (by simp)
  · obtain ⟨hm32, hsplit⟩ := split_result hv hr
    rw [hsplit] at hs
    simp only [Except.ok.injEq, Prod.mk.injEq] at hs
    obtain ⟨h1, h2⟩ := hs
    subst h1
    subst h2
    have hm1 : 1 ≤ b.mask := by
      by_contra hc
      have hz : b.mask = 0 := by omega
      rw [hv.2.2.2.1, hz, range_zero] at hnz
      exact hnz rfl
    have hrange : b.rangeLength = 2 ^ (32 - b.mask) :=
      hv.2.2.2.1.trans (range_pos_closed b.mask (by omega) hm1)
    have hpow : 2 ^ (32 - b.mask) = 2 ^ (31 - b.mask) * 2 := by
      rw [← Nat.pow_succ]
      congr 1
      omega
    have hhalf : b.rangeLength / 2 = 2 ^ (31 - b.mask) := by
      rw [hrange, hpow]
      exact Nat.mul_div_cancel _ (by norm_num)
    have hpos : 0 < 2 ^ (31 - b.mask) := Nat.pow_pos (by norm_num)
    have hor := ip_or_pow hv hm32
    refine ⟨?_, ?_, ?_⟩
    · show b.rangeLength / 2 + b.rangeLength / 2 = b.rangeLength
      rw [hhalf, hrange, hpow]
      omega
    · show b.ip < b.ip ||| 2 ^ (31 - b.mask)
      rw [hor]
      omega
    · show b.ip ||| 2 ^ (31 - b.mask) = b.ip + b.rangeLength / 2
      rw [hor, hhalf]

/-- C7: Split fails, with the not-splittable error, exactly when the stored
rangeLength is 1; in every other case it returns two blocks and no error. -/
theorem c7_split_error_iff :
    ∀ b : IPv4CIDR,
      (b.rangeLength = 1 → b.Split = Except.error CIDRErr.noMoreSplittingPossible) ∧
      (b.rangeLength ≠ 1 → ∃ lo hi : IPv4CIDR, b.Split = Except.ok (lo, hi)) := by
  intro b
  constructor
  · intro hr
    rw [IPv4CIDR.Split, if_pos hr]
  · intro hr
    refine ⟨⟨b.ip, (b.mask + 1) % 256, (b.netmask >>> 1) ||| HighestBitSet, b.rangeLength / 2⟩,
            ⟨b.ip ||| (((b.netmask >>> 1) ||| HighestBitSet) ^^^ b.netmask), (b.mask + 1) % 256,
             (b.netmask >>> 1) ||| HighestBitSet, b.rangeLength / 2⟩, ?_⟩
    simp only [IPv4CIDR.Split, if_neg hr]

/-- C9: GetIPInRange does not enforce that n be positive: on every
constructed block, calling it with n = 0 succeeds, because the out-of-range
check only rejects n above rangeLength, and returns the dotted-quad string
of address - 1 computed modulo 2 to the 32, wrapping below the start of the
range. -/
theorem c9_zero_index_wraps :
    ∀ (l : List Char) (std : Bool) (b : IPv4CIDR), NewIPv4CIDR l std = Except.ok b →
      b.GetIPInRange 0 false =
        Except.ok (ConvertIPToString ((b.ip + (uint32Mod - 1)) % uint32Mod)) := by
  intro l std b h
  have hip := (newIPv4CIDR_valid h).2.1
  have hip' : b.ip < 4294967296 := by
    rw [show (4294967296 : Nat) = uint32Mod from rfl]
    exact hip
  simp only [IPv4CIDR.GetIPInRange, Nat.not_lt_zero, if_neg (Nat.not_lt.mpr (Nat.zero_le _)), if_false]
  have harith : ((b.ip + 0) % uint32Mod + 4294967295) % uint32Mod =
      (b.ip + (uint32Mod - 1)) % uint32Mod := by
    show ((b.ip + 0) % 4294967296 + 4294967295) % 4294967296 =
      (b.ip + (4294967296 - 1)) % 4294967296
    omega
  rw [harith]
  norm_num

/-- C10: for every input string matching the validation pattern, the
number-conversion error branches inside parse are unreachable: parse either
succeeds or fails with the non-standardized-IP error, never with an Atoi
conversion error or an octet-index panic. -/
theorem c10_no_atoi_error :
    ∀ (l : List Char) (std : Bool), IPv4CIDRRegexMatch l = true →
      IPv4CIDR.parse l std = Except.error CIDRErr.nonStandardizedIP ∨
      ∃ b : IPv4CIDR, IPv4CIDR.parse l std = Except.ok b := by
  intro l std hm
  obtain ⟨mask, ip, hm32, hip, hp⟩ := parse_of_match l std hm
  rw [hp]
  cases std
  · simp only [Bool.false_eq_true, if_false]
    unfold CheckStandardized
    by_cases hstd : ip = Standardize ip (GetNetmask mask)
    · right
      exact ⟨⟨ip, mask, GetNetmask mask, GetCIDRRangeLength mask⟩, by rw [if_pos hstd]⟩
    · left
      rw [if_neg hstd]
  · right
    exact ⟨⟨Standardize ip (GetNetmask mask), mask, GetNetmask mask, GetCIDRRangeLength mask⟩,
           by rw [if_pos rfl]⟩

/-- C3 (amended): for every block returned by NewIPv4CIDR whose stored
rangeLength is nonzero (every prefix length other than 0), GetIPInRange with
n = 1 succeeds and returns exactly the GetIP string of the block.  The
original claim included prefix length 0, where the call errors instead. -/
theorem c3_first_ip :
    ∀ (l : List Char) (std : Bool) (b : IPv4CIDR), NewIPv4CIDR l std = Except.ok b →
      b.rangeLength ≠ 0 → b.GetIPInRange 1 false = Except.ok b.GetIP := by
  intro l std b h hnz
  have hip := (newIPv4CIDR_valid h).2.1
  have hip' : b.ip < 4294967296 := hip
  simp only [IPv4CIDR.GetIPInRange, if_neg (by omega : ¬ b.rangeLength < 1)]
  have harith : ((b.ip + 1) % uint32Mod + 4294967295) % uint32Mod = b.ip := by
    show ((b.ip + 1) % 4294967296 + 4294967295) % 4294967296 = b.ip
    omega
  rw [harith]
  norm_num
  rfl

/-- C5: for every prefix length up to 32, GetNetmask equals the all-ones
32-bit value shifted left by 32 minus the prefix reduced modulo 2 to the 32,
and GetCIDRRangeLength equals 2 to the (32 minus prefix) reduced modulo
2 to the 32; the endpoints give netmask 0 and range 0 at prefix 0, and the
all-ones netmask and range 1 at prefix 32. -/
theorem c5_formulas :
    (∀ p : Nat, p ≤ 32 →
        GetNetmask p = (MaxUInt32 <<< (32 - p)) % uint32Mod ∧
        GetCIDRRangeLength p = 2 ^ (32 - p) % uint32Mod) ∧
      GetNetmask 0 = 0 ∧ GetNetmask 32 = MaxUInt32 ∧
      GetCIDRRangeLength 32 = 1 ∧ GetCIDRRangeLength 0 = 0 := by
  have hball : ∀ p < 33, GetNetmask p = (MaxUInt32 <<< (32 - p)) % uint32Mod ∧
      GetCIDRRangeLength p = 2 ^ (32 - p) % uint32Mod := by decide
  exact ⟨fun p hp => hball p (by omega), by decide, by decide, by decide, by decide⟩

/-- C6: for every constructed block and every n of at least 1, GetIPInRange
fails with the out-of-range error exactly when n exceeds the stored
rangeLength, and otherwise returns the dotted-quad string of
address + n - 1, with a slash and the prefix length appended exactly when
the withCIDR flag is set. -/
theorem c6_nth_ip :
    ∀ (l : List Char) (std : Bool) (b : IPv4CIDR) (n : Nat) (w : Bool),
      NewIPv4CIDR l std = Except.ok b → 1 ≤ n →
      (b.rangeLength < n → b.GetIPInRange n w = Except.error CIDRErr.requestedIPExceedsCIDRRange) ∧
      (n ≤ b.rangeLength →
        b.GetIPInRange n w =
          Except.ok (ConvertIPToString (b.ip + n - 1) ++ if w then '/' :: itoa b.mask else [])) := by
  intro l std b n w h hn
  have hv := newIPv4CIDR_valid h
  constructor
  · intro hlt
    simp only [IPv4CIDR.GetIPInRange, if_pos hlt]
  · intro hle
    obtain ⟨hm, hip, hnm, hrl, hinv⟩ := hv
    have hm0 : b.mask ≠ 0 := by
      intro h0
      rw [hrl, h0, range_zero] at hle
      omega
    have hrange : b.rangeLength = 2 ^ (32 - b.mask) :=
      hrl.trans (range_pos_closed b.mask (by omega) (by omega))
    have hmod := valid_ip_mod ⟨hm, hip, hnm, hrl, hinv⟩
    obtain ⟨t, ht⟩ := Nat.dvd_of_mod_eq_zero hmod
    have hip32 : b.ip < 2 ^ 32 := by
      rw [← uint32Mod_eq]
      exact hip
    have hsplitpow : (2 : Nat) ^ 32 = 2 ^ (32 - b.mask) * 2 ^ b.mask := by
      rw [← Nat.pow_add]
      congr 1
      omega
    have ht' : t < 2 ^ b.mask := by
      by_contra hc
      push_neg at hc
      have hmul : 2 ^ (32 - b.mask) * 2 ^ b.mask ≤ 2 ^ (32 - b.mask) * t :=
        Nat.mul_le_mul_left _ hc
      rw [← hsplitpow] at hmul
      omega
    have hbound : b.ip + b.rangeLength ≤ 2 ^ 32 := by
      have hstep : t + 1 ≤ 2 ^ b.mask := ht'
      have hmul : 2 ^ (32 - b.mask) * (t + 1) ≤ 2 ^ (32 - b.mask) * 2 ^ b.mask :=
        Nat.mul_le_mul_left _ hstep
      rw [← hsplitpow] at hmul
      have hsucc : 2 ^ (32 - b.mask) * (t + 1) = 2 ^ (32 - b.mask) * t + 2 ^ (32 - b.mask) :=
        Nat.mul_succ _ _
      rw [hrange, ht]
      omega
    have hb' : b.ip + b.rangeLength ≤ 4294967296 := by
      have h32 : (2 : Nat) ^ 32 = 4294967296 := by norm_num
      rw [h32] at hbound
      exact hbound
    simp only [IPv4CIDR.GetIPInRange, if_neg (by omega : ¬ b.rangeLength < n)]
    have harith : ((b.ip + n) % uint32Mod + 4294967295) % uint32Mod = b.ip + n - 1 := by
      show ((b.ip + n) % 4294967296 + 4294967295) % 4294967296 = b.ip + n - 1
      omega
    rw [harith]
    cases w
    · norm_num
    · norm_num

theorem splitOnChar_ne_nil (sep : Char) (l : List Char) : splitOnChar sep l ≠ [] := by
  cases l with
  | nil => simp [splitOnChar]
  | cons c rest =>
    simp only [splitOnChar]
    rcases h : splitOnChar sep rest with _ | ⟨cur, acc⟩
    · simp
    · by_cases hc : c = sep
      all_goals simp [hc]

theorem splitOnChar_no_sep {sep : Char} {l : List Char} (h : sep ∉ l) :
    splitOnChar sep l = [l] := by
  induction l with
  | nil => rfl
  | cons c rest ih =>
    have hc : ¬ (c = sep) := fun he => h (he ▸ List.mem_cons_self c rest)
    have hr : sep ∉ rest := fun hm => h (List.mem_cons_of_mem c hm)
    simp only [splitOnChar, ih hr, if_neg hc]

theorem splitOnChar_append {sep : Char} {A r : List Char} (hA : sep ∉ A) :
    splitOnChar sep (A ++ sep :: r) = A :: splitOnChar sep r := by
  induction A with
  | nil =>
    simp only [List.nil_append, splitOnChar]
    rcases h : splitOnChar sep r with _ | ⟨cur, acc⟩
    · exact absurd h (splitOnChar_ne_nil sep r)
    · simp
  | cons c A' ih =>
    have hc : ¬ (c = sep) := fun he => hA (he ▸ List.mem_cons_self c A')
    have hr : sep ∉ A' := fun hm => hA (List.mem_cons_of_mem c hm)
    simp only [List.cons_append, List.append_eq, splitOnChar, ih hr, if_neg hc]

theorem convert_eq (ip : Nat) :
    ConvertIPToString ip =
      itoa ((((ip >>> GroupSize) >>> GroupSize) >>> GroupSize) &&& EightBits) ++
        '.' :: (itoa (((ip >>> GroupSize) >>> GroupSize) &&& EightBits) ++
          '.' :: (itoa ((ip >>> GroupSize) &&& EightBits) ++
            '.' :: itoa (ip &&& EightBits))) := by
  simp [ConvertIPToString, List.intercalate, List.intersperse, List.flatten]

theorem itoa_digits_lt256 : ∀ v < 256, (itoa v).all isDigitChar = true := by decide

theorem matchOctet_itoa : ∀ v < 256, matchOctet (itoa v) = true := by decide

theorem atoi_itoa : ∀ v < 256, atoi (itoa v) = some ((v : Nat) : Int) := by decide

theorem matchMaskPart_itoa : ∀ m < 33, matchMaskPart (itoa m) = true := by decide

theorem slash_not_mem_itoa {v : Nat} (hv : v < 256) : '/' ∉ itoa v := by
  intro hmem
  have hall := List.all_eq_true.mp (itoa_digits_lt256 v hv) _ hmem
  exact absurd hall (by decide)

theorem dot_not_mem_itoa {v : Nat} (hv : v < 256) : '.' ∉ itoa v := by
  intro hmem
  have hall := List.all_eq_true.mp (itoa_digits_lt256 v hv) _ hmem
  exact absurd hall (by decide)

theorem reparse_convert {ip mask : Nat} (hip : ip < uint32Mod) (hmask : mask ≤ 32)
    (hstd : ip &&& GetNetmask mask = ip) :
    NewIPv4CIDR (ConvertIPToString ip ++ '/' :: itoa mask) false =
      Except.ok ⟨ip, mask, GetNetmask mask, GetCIDRRangeLength mask⟩ := by
  have e255 : EightBits = 255 := rfl
  set e3 := ip &&& EightBits with he3
  set e2 := (ip >>> GroupSize) &&& EightBits with he2
  set e1 := ((ip >>> GroupSize) >>> GroupSize) &&& EightBits with he1
  set e0 := (((ip >>> GroupSize) >>> GroupSize) >>> GroupSize) &&& EightBits with he0
  have hb3 : e3 < 256 := by
    have h := @Nat.and_le_right ip EightBits
    omega
  have hb2 : e2 < 256 := by
    have h := @Nat.and_le_right (ip >>> GroupSize) EightBits
    omega
  have hb1 : e1 < 256 := by
    have h := @Nat.and_le_right ((ip >>> GroupSize) >>> GroupSize) EightBits
    omega
  have hb0 : e0 < 256 := by
    have h := @Nat.and_le_right (((ip >>> GroupSize) >>> GroupSize) >>> GroupSize) EightBits
    omega
  have hconv : ConvertIPToString ip =
      itoa e0 ++ '.' :: (itoa e1 ++ '.' :: (itoa e2 ++ '.' :: itoa e3)) := convert_eq ip
  have hslashC : '/' ∉ ConvertIPToString ip := by
    rw [hconv]
    intro hmem
    simp only [List.mem_append, List.mem_cons] at hmem
    rcases hmem with h | h | h | h | h | h | h
    · exact slash_not_mem_itoa hb0 h
    · exact absurd h (by decide)
    · exact slash_not_mem_itoa hb1 h
    · exact absurd h (by decide)
    · exact slash_not_mem_itoa hb2 h
    · exact absurd h (by decide)
    · exact slash_not_mem_itoa hb3 h
  have hsplit1 : splitOnChar '/' (ConvertIPToString ip ++ '/' :: itoa mask) =
      [ConvertIPToString ip, itoa mask] := by
    rw [splitOnChar_append hslashC, splitOnChar_no_sep (slash_not_mem_itoa (by omega))]
  have hsplit2 : splitOnChar '.' (ConvertIPToString ip) =
      [itoa e0, itoa e1, itoa e2, itoa e3] := by
    rw [hconv, splitOnChar_append (dot_not_mem_itoa hb0),
      splitOnChar_append (dot_not_mem_itoa hb1), splitOnChar_append (dot_not_mem_itoa hb2),
      splitOnChar_no_sep (dot_not_mem_itoa hb3)]
  have hmatch : IPv4CIDRRegexMatch (ConvertIPToString ip ++ '/' :: itoa mask) = true := by
    unfold IPv4CIDRRegexMatch
    rw [hsplit1]
    simp only [Bool.and_eq_true]
    constructor
    · unfold matchIPPart
      rw [hsplit2]
      simp only [Bool.and_eq_true]
      exact ⟨⟨⟨matchOctet_itoa e0 hb0, matchOctet_itoa e1 hb1⟩, matchOctet_itoa e2 hb2⟩,
        matchOctet_itoa e3 hb3⟩
    · exact matchMaskPart_itoa mask (by omega)
  have hmv256 : (((mask : Nat) : Int) % (256 : Int)).toNat = mask := by
    rw [Int.emod_eq_of_lt (by positivity) (by exact_mod_cast (by omega : mask < 256))]
    simp
  have hloop := parseIPLoop_four (atoi_itoa e0 hb0) (atoi_itoa e1 hb1) (atoi_itoa e2 hb2)
    (atoi_itoa e3 hb3) hb0 hb1 hb2 hb3
  have hrecompose : ((e0 * 256 + e1) * 256 + e2) * 256 + e3 = ip := by
    have hsh : ∀ x : Nat, x >>> GroupSize = x / 256 := by
      intro x
      rw [show GroupSize = 8 from rfl, Nat.shiftRight_eq_div_pow]
    have hand : ∀ x : Nat, x &&& EightBits = x % 256 := by
      intro x
      rw [show EightBits = 2 ^ 8 - 1 from by norm_num [e255], Nat.and_pow_two_sub_one_eq_mod]
    have hip' : ip < 4294967296 := hip
    rw [he0, he1, he2, he3, hand, hand, hand, hand, hsh, hsh, hsh]
    omega
  have hcheck : CheckStandardized ip (GetNetmask mask) = Except.ok () := by
    unfold CheckStandardized Standardize
    rw [if_pos hstd.symm]
  unfold NewIPv4CIDR
  rw [if_pos hmatch]
  unfold IPv4CIDR.parse
  rw [hsplit1]
  norm_num [List.getD, List.get?, atoi_itoa mask (by omega : mask < 256), hmv256]
  rw [hsplit2, hloop, hrecompose]
  simp only [hcheck]

/-- C4: for every input string accepted by NewIPv4CIDR with standardize
set to true, ToString of the resulting block re-parses under
standardize = false to a block equal to the first in all four fields. -/
theorem c4_roundtrip :
    ∀ (l : List Char) (b : IPv4CIDR), NewIPv4CIDR l true = Except.ok b →
      NewIPv4CIDR b.ToString false = Except.ok b := by
  intro l b h
  obtain ⟨hm, hip, hnm, hrl, hinv⟩ := newIPv4CIDR_valid h
  have hres := reparse_convert hip hm (hnm ▸ hinv)
  show NewIPv4CIDR (ConvertIPToString b.ip ++ '/' :: itoa b.mask) false = Except.ok b
  rw [hres]
  simp only [Except.ok.injEq]
  cases b
  simp only [IPv4CIDR.mk.injEq]
  exact ⟨trivial, trivial, hnm.symm, hrl.symm⟩

/-- Witness for C1 at the concrete input 10.10.0.0/26 and its Split. -/
theorem c1_standard_form_witness :
    (168427520 : Nat) &&& 4294967232 = 168427520 ∧
    (168427520 : Nat) &&& 4294967264 = 168427520 ∧
    (168427552 : Nat) &&& 4294967264 = 168427552 := by
  have h := c1_standard_form ['1', '0', '.', '1', '0', '.', '0', '.', '0', '/', '2', '6'] false
    ⟨168427520, 26, 4294967232, 64⟩ rfl
  have h2 := h.2 ⟨168427520, 27, 4294967264, 32⟩ ⟨168427552, 27, 4294967264, 32⟩ rfl
  exact ⟨h.1, h2.1, h2.2⟩

/-- Counterexample to C2 as stated: Split of the block parsed from
0.0.0.0/0 succeeds, yet the upper address 128.0.0.0 differs from the lower
address plus the lower range length, which is 0 + 0. -/
theorem c2_partition_cex :
    NewIPv4CIDR ['0', '.', '0', '.', '0', '.', '0', '/', '0'] false = Except.ok ⟨0, 0, 0, 0⟩ ∧
    IPv4CIDR.Split ⟨0, 0, 0, 0⟩ =
      Except.ok (⟨0, 1, 2147483648, 0⟩, ⟨2147483648, 1, 2147483648, 0⟩) ∧
    ¬ ((2147483648 : Nat) = 0 + 0) := ⟨rfl, rfl, by decide⟩

/-- Witness for C2 at the concrete input 10.10.0.0/26. -/
theorem c2_partition_witness :
    (32 : Nat) + 32 = 64 ∧ (168427520 : Nat) < 168427552 ∧
    (168427552 : Nat) = 168427520 + 32 := by
  have h := c2_partition ['1', '0', '.', '1', '0', '.', '0', '.', '0', '/', '2', '6'] false
    ⟨168427520, 26, 4294967232, 64⟩ ⟨168427520, 27, 4294967264, 32⟩
    ⟨168427552, 27, 4294967264, 32⟩ rfl (by decide) rfl
  exact h

/-- Counterexample to C3 as stated: on the block parsed from 0.0.0.0/0 the
1-based lookup of the first address fails with the out-of-range error even
though GetIP returns 0.0.0.0, because the stored rangeLength is 0. -/
theorem c3_first_ip_cex :
    NewIPv4CIDR ['0', '.', '0', '.', '0', '.', '0', '/', '0'] false = Except.ok ⟨0, 0, 0, 0⟩ ∧
    IPv4CIDR.GetIPInRange ⟨0, 0, 0, 0⟩ 1 false =
      Except.error CIDRErr.requestedIPExceedsCIDRRange ∧
    IPv4CIDR.GetIP ⟨0, 0, 0, 0⟩ = ['0', '.', '0', '.', '0', '.', '0'] := ⟨rfl, rfl, rfl⟩

/-- Witness for C3 at the concrete input 10.10.0.0/26. -/
theorem c3_first_ip_witness :
    IPv4CIDR.GetIPInRange ⟨168427520, 26, 4294967232, 64⟩ 1 false =
      Except.ok (IPv4CIDR.GetIP ⟨168427520, 26, 4294967232, 64⟩) :=
  c3_first_ip ['1', '0', '.', '1', '0', '.', '0', '.', '0', '/', '2', '6'] false
    ⟨168427520, 26, 4294967232, 64⟩ rfl (by decide)

/-- Witness for C4 at the concrete input 10.10.0.0/26. -/
theorem c4_roundtrip_witness :
    NewIPv4CIDR (IPv4CIDR.ToString ⟨168427520, 26, 4294967232, 64⟩) false =
      Except.ok ⟨168427520, 26, 4294967232, 64⟩ :=
  c4_roundtrip ['1', '0', '.', '1', '0', '.', '0', '.', '0', '/', '2', '6']
    ⟨168427520, 26, 4294967232, 64⟩ rfl

/-- Witness for C5 at prefix length 26. -/
theorem c5_formulas_witness :
    GetNetmask 26 = (MaxUInt32 <<< (32 - 26)) % uint32Mod ∧
    GetCIDRRangeLength 26 = 2 ^ (32 - 26) % uint32Mod :=
  c5_formulas.1 26 (by norm_num)

/-- Witness for C6 at the concrete input 10.10.0.0/26 with n 10 and 100. -/
theorem c6_nth_ip_witness :
    IPv4CIDR.GetIPInRange ⟨168427520, 26, 4294967232, 64⟩ 10 true =
      Except.ok (ConvertIPToString (168427520 + 10 - 1) ++ '/' :: itoa 26) ∧
    IPv4CIDR.GetIPInRange ⟨168427520, 26, 4294967232, 64⟩ 100 false =
      Except.error CIDRErr.requestedIPExceedsCIDRRange := by
  have h10 := c6_nth_ip ['1', '0', '.', '1', '0', '.', '0', '.', '0', '/', '2', '6'] false
    ⟨168427520, 26, 4294967232, 64⟩ 10 true rfl (by norm_num)
  have h100 := c6_nth_ip ['1', '0', '.', '1', '0', '.', '0', '.', '0', '/', '2', '6'] false
    ⟨168427520, 26, 4294967232, 64⟩ 100 false rfl (by norm_num)
  exact ⟨h10.2 (by norm_num), h100.1 (by norm_num)⟩

/-- Witness for C7 on a /32 block and on the 10.10.0.0/26 block. -/
theorem c7_split_error_iff_witness :
    IPv4CIDR.Split ⟨167904004, 32, 4294967295, 1⟩ =
      Except.error CIDRErr.noMoreSplittingPossible ∧
    IPv4CIDR.Split ⟨168427520, 26, 4294967232, 64⟩ =
      Except.ok (⟨168427520, 27, 4294967264, 32⟩, ⟨168427552, 27, 4294967264, 32⟩) := by
  have h1 := (c7_split_error_iff ⟨167904004, 32, 4294967295, 1⟩).1 rfl
  exact ⟨h1, rfl⟩

/-- Counterexample to C8 as stated: the input 010.10.0.0/26, whose first
octet has a leading zero, is accepted by NewIPv4CIDR rather than rejected
with the invalid-format error, because 010 still matches the three-digit
alternative of the octet pattern. -/
theorem c8_leading_zero_cex :
    NewIPv4CIDR ['0', '1', '0', '.', '1', '0', '.', '0', '.', '0', '/', '2', '6'] false =
      Except.ok ⟨168427520, 26, 4294967232, 64⟩ ∧
    NewIPv4CIDR ['0', '1', '0', '.', '1', '0', '.', '0', '.', '0', '/', '2', '6'] false ≠
      Except.error CIDRErr.invalidIPv4CIDR := by
  constructor
  · rfl
  · intro hc
    rw [show NewIPv4CIDR ['0', '1', '0', '.', '1', '0', '.', '0', '.', '0', '/', '2', '6'] false =
        Except.ok ⟨168427520, 26, 4294967232, 64⟩ from rfl] at hc
    simp at hc

/-- C8 (amended): leading-zero octets are not uniformly rejected: a
leading-zero octet of at most three digits still matches the pattern's
digit-count forms, so 010.10.0.0/26 is accepted and parses identically to
10.10.0.0/26, while an octet of four or more digits such as 0010 falls
outside the forms and is rejected with the invalid-format error. -/
theorem c8_leading_zero_amended :
    NewIPv4CIDR ['0', '1', '0', '.', '1', '0', '.', '0', '.', '0', '/', '2', '6'] false =
      NewIPv4CIDR ['1', '0', '.', '1', '0', '.', '0', '.', '0', '/', '2', '6'] false ∧
    NewIPv4CIDR ['0', '0', '1', '0', '.', '1', '0', '.', '0', '.', '0', '/', '2', '6'] false =
      Except.error CIDRErr.invalidIPv4CIDR := ⟨rfl, rfl⟩

/-- Witness for C9 at the concrete input 10.10.0.0/26. -/
theorem c9_zero_index_wraps_witness :
    IPv4CIDR.GetIPInRange ⟨168427520, 26, 4294967232, 64⟩ 0 false =
      Except.ok (ConvertIPToString ((168427520 + (uint32Mod - 1)) % uint32Mod)) :=
  c9_zero_index_wraps ['1', '0', '.', '1', '0', '.', '0', '.', '0', '/', '2', '6'] false
    ⟨168427520, 26, 4294967232, 64⟩ rfl

/-- Witness for C10 at the concrete non-standard input 10.10.0.1/26. -/
theorem c10_no_atoi_error_witness :
    IPv4CIDR.parse ['1', '0', '.', '1', '0', '.', '0', '.', '1', '/', '2', '6'] false =
      Except.error CIDRErr.nonStandardizedIP := by
  have h := c10_no_atoi_error ['1', '0', '.', '1', '0', '.', '0', '.', '1', '/', '2', '6'] false
    (by decide)
  rcases h with h | ⟨b, hb⟩
  · exact h
  · rw [show IPv4CIDR.parse ['1', '0', '.', '1', '0', '.', '0', '.', '1', '/', '2', '6'] false =
        Except.error CIDRErr.nonStandardizedIP from rfl] at hb
    simp at hb
